import Mathlib

/-!
Verification of the response-normalization pipeline of `src/api/claude.js`
(the complaint-analysis service): the JSON extractor `extractJSON`, the
normalizer `normalizeResults`, and the request-level success/failure decision
of the `/analyze-complaints` handler.

The JavaScript is embedded shallowly:

* JSON-produced JavaScript values are `JVal` (every value reachable here comes
  out of `JSON.parse` or of the JSON request body, so `undefined`, functions
  and non-plain objects never occur as *stored* values; `undefined` shows up
  only as the result of reading an absent property and is modelled by
  `Option JVal`'s `none`).
* JavaScript numbers are modelled as exact rationals (`Rat`).  Every number a
  claim touches is a small integer, where IEEE doubles are exact.
* Property reads, `toString` coercion and the `Array.prototype.map`
  callback can throw `TypeError` (reading a property of `null`, or coercing an
  object whose own `toString` is a non-callable JSON value); fallible
  evaluation is `Except String`.
-/

namespace ClaudeApi

/-- A JavaScript value as produced by `JSON.parse` (or by the JSON body
parser): `null`, booleans, numbers, strings, arrays, and plain objects whose
fields keep their textual order (a repeated name keeps the last value, as
`JSON.parse` does). -/
inductive JVal where
  | null
  | bool (b : Bool)
  | num (q : Rat)
  | str (s : String)
  | arr (elems : List JVal)
  | obj (fields : List (String × JVal))


/-- Lookup of an own property in a field list, taking the last occurrence of a
repeated name, as `JSON.parse` effectively does when it builds the object. -/
def lookupLast (fields : List (String × JVal)) (k : String) : Option JVal :=
  match fields with
  | [] => none
  | (k₁, v) :: rest =>
    match lookupLast rest k with
    | some r => some r
    | none => if k₁ = k then some v else none

/-- Own-property read `v[k]` on a value already known not to be `null`:
objects yield their field (or `undefined` = `none`); every other
JSON-producible value yields `undefined` for the property names this service
reads (`id`, `priority`, `summary`, `risk_score`, `issues`, `text`,
`rationale`, `reason`, `risk_category`, `category`, `complaintId`), none of
which is an array index or `length`. -/
def propLookup (v : JVal) (k : String) : Option JVal :=
  match v with
  | .obj fields => lookupLast fields k
  | _ => none

/-- JavaScript truthiness of a JSON-producible value (`NaN` and `-0` cannot
come out of `JSON.parse`, and `undefined` is handled at `Option` level). -/
def truthy : JVal → Bool
  | .null => false
  | .bool b => b
  | .num q => q != 0
  | .str s => s != ""
  | .arr _ => true
  | .obj _ => true

/-- The JavaScript expression `a || d` where `a` is a possibly-`undefined`
value (an absent property read is `none`). -/
def jsOr (a : Option JVal) (d : JVal) : JVal :=
  match a with
  | some v => if truthy v then v else d
  | none => d

/-- Rendering of a JavaScript number.  Integers render exactly as JS does.
JS renders a non-integral double as its shortest round-tripping decimal; the
`Rat` idealization has no canonical double spelling, so non-integral values
get a visibly numeric placeholder.  The one consumer of this function
(`normalizeResults`' priority coercion) lowercases the result and compares it
against the purely alphabetic keyword set, on which every numeric rendering,
JS's and this one alike, fails, so the difference is unobservable there. -/
def jsNumToString (q : Rat) : String :=
  if q.den = 1 then toString q.num
  else toString q.num ++ "/" ++ toString q.den

mutual

/-- JavaScript `String(v)` / `v.toString()` on a JSON-producible value.
`null` renders as `"null"`, booleans and numbers by their literals, arrays by
`Array.prototype.join` with a comma, and plain objects as
`"[object Object]"` — except that an object carrying an *own* `toString`
property (always a plain JSON value here, never a function) makes the
coercion throw `TypeError`, because the own property shadows
`Object.prototype.toString` and is not callable. -/
def jsToString : JVal → Except String String
  | .null => .ok "null"
  | .bool b => .ok (if b then "true" else "false")
  | .num q => .ok (jsNumToString q)
  | .str s => .ok s
  | .arr xs => joinElems xs
  | .obj fields =>
    match lookupLast fields "toString" with
    | some _ => .error "TypeError: toString is not a function"
    | none => .ok "[object Object]"

/-- `String(element)` as `Array.prototype.join` applies it: `null` (and
`undefined`, which JSON cannot produce) renders as the empty string, every
other value as `jsToString` renders it. -/
def jsElemStr : JVal → Except String String
  | .null => .ok ""
  | .bool b => .ok (if b then "true" else "false")
  | .num q => .ok (jsNumToString q)
  | .str s => .ok s
  | .arr xs => joinElems xs
  | .obj fields =>
    match lookupLast fields "toString" with
    | some _ => .error "TypeError: toString is not a function"
    | none => .ok "[object Object]"

/-- `Array.prototype.join` with the default comma separator, left to right,
propagating the first coercion error. -/
def joinElems : List JVal → Except String String
  | [] => .ok ""
  | x :: rest =>
    match jsElemStr x with
    | .error e => .error e
    | .ok s =>
      match rest with
      | [] => .ok s
      | _ :: _ =>
        match joinElems rest with
        | .error e => .error e
        | .ok t => .ok (s ++ "," ++ t)

end

/-- `String.prototype.toLowerCase` restricted to its ASCII action, which is
all the comparison against the ASCII keyword set can observe. -/
def asciiLower (s : String) : String :=
  String.mk (s.toList.map Char.toLower)

/-- One normalized issue, as built at lines 74–78 of `src/api/claude.js`:
`text`, `rationale` and `risk_category` stay JavaScript values, because `||`
passes any truthy value through unchanged. -/
structure NormIssue where
  text : JVal
  rationale : JVal
  risk_category : JVal

/-- One normalized result row, as built at lines 69–80 of
`src/api/claude.js`.  `priority` is genuinely a string (both branches of its
conditional produce one); the remaining fields stay JavaScript values. -/
structure NormItem where
  id : JVal
  priority : String
  summary : JVal
  risk_score : JVal
  issues : List NormIssue
  raw : JVal

/-- `allowedPriorities` of `src/api/claude.js` line 65. -/
def allowedPriorities : List String := ["urgent", "medium", "low"]

/-- The issue projection (lines 75–77 of `src/api/claude.js`):

`text: issue.text || ''`,
`rationale: issue.rationale || issue.reason || ''`,
`risk_category: issue.risk_category || issue.category || null`.

Reading a property of a `null` issue throws; any other JSON value supports
the reads (yielding `undefined` when the property is absent). -/
def projectIssue (issue : JVal) : Except String NormIssue :=
  match issue with
  | .null => .error "TypeError: Cannot read properties of null"
  | _ =>
    .ok { text := jsOr (propLookup issue "text") (.str "")
          rationale := jsOr (propLookup issue "rationale") (jsOr (propLookup issue "reason") (.str ""))
          risk_category := jsOr (propLookup issue "risk_category") (jsOr (propLookup issue "category") .null) }

/-- `issues.slice(0, 10).map(issue => ...)` runs the projection left to
right and propagates the first thrown `TypeError`. -/
def mapIssues : List JVal → Except String (List NormIssue)
  | [] => .ok []
  | y :: ys =>
    match projectIssue y with
    | .error e => .error e
    | .ok r =>
      match mapIssues ys with
      | .error e => .error e
      | .ok rs => .ok (r :: rs)

/-- `(item.priority || '').toString()` (line 68): the only field whose
computation can throw on a non-`null` item. -/
def priorityCoerce (item : JVal) : Except String String :=
  jsToString (jsOr (propLookup item "priority") (JVal.str ""))

/-- `Array.isArray(item.issues) ? item.issues.slice(0, 10).map(...) : []`
(lines 74–78). -/
def issuesOf (item : JVal) : Except String (List NormIssue) :=
  match propLookup item "issues" with
  | some (.arr ys) => mapIssues (ys.take 10)
  | _ => .ok []

/-- `item.id || base.id || base.complaintId || ` `` `row-${idx}` `` (line 70). -/
def idChain (item base : JVal) (idx : Nat) : JVal :=
  jsOr (propLookup item "id")
    (jsOr (propLookup base "id")
      (jsOr (propLookup base "complaintId") (.str ("row-" ++ toString idx))))

/-- `typeof item.risk_score === 'number' ? Math.min(100, Math.max(0,
item.risk_score)) : null` (line 73); `typeof` is `'number'` exactly on the
`num` constructor. -/
def riskScoreOf (item : JVal) : JVal :=
  match propLookup item "risk_score" with
  | some (.num q) => .num (min 100 (max 0 q))
  | _ => .null

/-- The body of the `raw.map((item, idx) => ...)` callback (lines 66–80 of
`src/api/claude.js`) for one element.

If `item` is `null`, the first property read (`item.id`) throws; the `null`
check is hoisted here since every read on a non-`null` JSON value succeeds.
The two remaining throw sites are the priority coercion
`(item.priority || '').toString()` (an object value with an own `toString`)
and the issue projection (a `null` among the first ten issue entries); the
JS evaluation order makes the priority coercion fire first, which this
definition preserves. -/
def normalizeItem (item : JVal) (base : JVal) (idx : Nat) : Except String NormItem :=
  match item with
  | .null => .error "TypeError: Cannot read properties of null"
  | _ =>
    match priorityCoerce item with
    | .error e => .error e
    | .ok pRaw =>
      match issuesOf item with
      | .error e => .error e
      | .ok issues =>
        .ok { id := idChain item base idx
              priority :=
                if allowedPriorities.contains (asciiLower pRaw) then asciiLower pRaw
                else "medium"
              summary := jsOr (propLookup item "summary") (.str "")
              risk_score := riskScoreOf item
              issues := issues
              raw := item }

/-- `const base = originalComplaints[idx] || {}` (line 67). -/
def baseFor (originalComplaints : List JVal) (idx : Nat) : JVal :=
  jsOr (originalComplaints.get? idx) (.obj [])

/-- `raw.map((item, idx) => ...)`: left-to-right over the parsed array's
elements, carrying the running index and propagating the first thrown
`TypeError`. -/
def normalizeResultsAux (items : List JVal) (originalComplaints : List JVal) (idx : Nat) :
    Except String (List NormItem) :=
  match items with
  | [] => .ok []
  | item :: rest =>
    match normalizeItem item (baseFor originalComplaints idx) idx with
    | .error e => .error e
    | .ok r =>
      match normalizeResultsAux rest originalComplaints (idx + 1) with
      | .error e => .error e
      | .ok rs => .ok (r :: rs)

/-- `normalizeResults(raw, originalComplaints)` (lines 63–82 of
`src/api/claude.js`): `[]` when `raw` is not an array
(`if (!Array.isArray(raw)) return []`), otherwise the `.map` above. -/
def normalizeResults (raw : JVal) (originalComplaints : List JVal) :
    Except String (List NormItem) :=
  match raw with
  | .arr items => normalizeResultsAux items originalComplaints 0
  | _ => .ok []

/-! ## `JSON.parse`

A recursive-descent parser for the ECMA-404 grammar, used to model the
`JSON.parse(jsonMatch[0])` call inside `extractJSON`.  Recursion is bounded
by fuel that strictly exceeds any possible recursion depth for the given
input, so running out of fuel is unreachable and `none` means exactly a
syntax error. -/

/-- The four JSON whitespace characters. -/
def isJsonWs (c : Char) : Bool :=
  c = ' ' || c = '\t' || c = '\n' || c = '\r'

/-- Drop leading JSON whitespace. -/
def skipWs (cs : List Char) : List Char :=
  cs.dropWhile isJsonWs

/-- Value of a hexadecimal digit. -/
def hexVal (c : Char) : Option Nat :=
  if '0' ≤ c ∧ c ≤ '9' then some (c.toNat - '0'.toNat)
  else if 'a' ≤ c ∧ c ≤ 'f' then some (c.toNat - 'a'.toNat + 10)
  else if 'A' ≤ c ∧ c ≤ 'F' then some (c.toNat - 'A'.toNat + 10)
  else none

/-- Value of a non-empty decimal digit string. -/
def digitsVal (ds : List Char) : Nat :=
  ds.foldl (fun a c => a * 10 + (c.toNat - '0'.toNat)) 0

/-- Body of a JSON string literal, after the opening quote; `acc` holds the
decoded characters in reverse.  Escapes follow ECMA-404; a `\uXXXX` high
surrogate followed by a `\uXXXX` low surrogate decodes to the combined
scalar.  A lone surrogate, which JavaScript keeps as an unpaired UTF-16 unit
no Lean `Char` can hold, decodes to U+FFFD; no string in this development
exercises that corner.  Unescaped control characters are a syntax error.
Every recursive call consumes at least one input character and one unit of
fuel, so the wrapper's fuel of `|input| + 1` never runs out. -/
def strLitAux : Nat → List Char → List Char → Option (String × List Char)
  | 0, _, _ => none
  | _ + 1, [], _ => none
  | _ + 1, '"' :: rest, acc => some (String.mk acc.reverse, rest)
  | fuel + 1, '\\' :: rest, acc =>
    match rest with
    | '"' :: r => strLitAux fuel r ('"' :: acc)
    | '\\' :: r => strLitAux fuel r ('\\' :: acc)
    | '/' :: r => strLitAux fuel r ('/' :: acc)
    | 'b' :: r => strLitAux fuel r ('\x08' :: acc)
    | 'f' :: r => strLitAux fuel r ('\x0C' :: acc)
    | 'n' :: r => strLitAux fuel r ('\n' :: acc)
    | 'r' :: r => strLitAux fuel r ('\r' :: acc)
    | 't' :: r => strLitAux fuel r ('\t' :: acc)
    | 'u' :: h₁ :: h₂ :: h₃ :: h₄ :: r =>
      match hexVal h₁, hexVal h₂, hexVal h₃, hexVal h₄ with
      | some a, some b, some c, some d =>
        let code := ((a * 16 + b) * 16 + c) * 16 + d
        if 0xD800 ≤ code ∧ code ≤ 0xDBFF then
          match r with
          | '\\' :: 'u' :: g₁ :: g₂ :: g₃ :: g₄ :: r₂ =>
            match hexVal g₁, hexVal g₂, hexVal g₃, hexVal g₄ with
            | some a₂, some b₂, some c₂, some d₂ =>
              let code₂ := ((a₂ * 16 + b₂) * 16 + c₂) * 16 + d₂
              if 0xDC00 ≤ code₂ ∧ code₂ ≤ 0xDFFF then
                strLitAux fuel r₂
                  (Char.ofNat (0x10000 + (code - 0xD800) * 0x400 + (code₂ - 0xDC00)) :: acc)
              else strLitAux fuel r ('�' :: acc)
            | _, _, _, _ => strLitAux fuel r ('�' :: acc)
          | _ => strLitAux fuel r ('�' :: acc)
        else if 0xDC00 ≤ code ∧ code ≤ 0xDFFF then strLitAux fuel r ('�' :: acc)
        else strLitAux fuel r (Char.ofNat code :: acc)
      | _, _, _, _ => none
    | _ => none
  | fuel + 1, c :: rest, acc => if c.toNat < 0x20 then none else strLitAux fuel rest (c :: acc)

/-- A JSON string literal body, after the opening quote. -/
def strLit (cs : List Char) : Option (String × List Char) :=
  strLitAux (cs.length + 1) cs []

/-- Assemble a JSON number from sign, integer digits value, fraction digits
and decimal exponent.  The integer branch avoids `Rat` normalization so that
kernel evaluation stays cheap. -/
def assembleNumber (neg : Bool) (intPart : Nat) (fracDs : List Char) (e : Int) : Rat :=
  let mant : Nat := intPart * 10 ^ fracDs.length + digitsVal fracDs
  let signed : Int := if neg then -(mant : Int) else (mant : Int)
  let scale : Int := e - (fracDs.length : Int)
  if 0 ≤ scale then ((signed * (10 : Int) ^ scale.toNat : Int) : Rat)
  else mkRat signed (10 ^ (-scale).toNat)

/-- Exponent part of a JSON number, after the `e`/`E`: an optional sign and
at least one digit. -/
def parseExpPart (cs : List Char) : Option (Int × List Char) :=
  let sgn : Bool × List Char :=
    match cs with
    | '+' :: r => (false, r)
    | '-' :: r => (true, r)
    | _ => (false, cs)
  let ds := sgn.2.takeWhile Char.isDigit
  if ds.isEmpty then none
  else
    some ((if sgn.1 then -(digitsVal ds : Int) else (digitsVal ds : Int)),
      sgn.2.dropWhile Char.isDigit)

/-- Optional exponent after integer and fraction parts of a JSON number. -/
def finishNumber (neg : Bool) (intPart : Nat) (fracDs : List Char) (cs : List Char) :
    Option (Rat × List Char) :=
  match cs with
  | 'e' :: r =>
    match parseExpPart r with
    | some (e, rest) => some (assembleNumber neg intPart fracDs e, rest)
    | none => none
  | 'E' :: r =>
    match parseExpPart r with
    | some (e, rest) => some (assembleNumber neg intPart fracDs e, rest)
    | none => none
  | _ => some (assembleNumber neg intPart fracDs 0, cs)

/-- A JSON number literal: optional `-`, then `0` or a nonzero-led digit
string, optional `.digits`, optional exponent.  (A leading-zero form such as
`01` parses its `0` and leaves `1`, which the surrounding grammar then
rejects, matching `JSON.parse`.) -/
def parseNumber (cs : List Char) : Option (Rat × List Char) :=
  let sgn : Bool × List Char :=
    match cs with
    | '-' :: r => (true, r)
    | _ => (false, cs)
  match sgn.2 with
  | c :: r =>
    if c.isDigit then
      let ip : Nat × List Char :=
        if c = '0' then (0, r)
        else (digitsVal (c :: r.takeWhile Char.isDigit), r.dropWhile Char.isDigit)
      match ip.2 with
      | '.' :: r₂ =>
        let fds := r₂.takeWhile Char.isDigit
        if fds.isEmpty then none
        else finishNumber sgn.1 ip.1 fds (r₂.dropWhile Char.isDigit)
      | _ => finishNumber sgn.1 ip.1 [] ip.2
    else none
  | [] => none

mutual

/-- One JSON value: object, array, string, `true`, `false`, `null`, or
number, after optional whitespace. -/
def pVal : Nat → List Char → Option (JVal × List Char)
  | 0, _ => none
  | fuel + 1, cs =>
    match skipWs cs with
    | '{' :: rest => pObj fuel rest
    | '[' :: rest => pArr fuel rest
    | '"' :: rest =>
      match strLit rest with
      | some (s, r) => some (.str s, r)
      | none => none
    | 't' :: 'r' :: 'u' :: 'e' :: rest => some (.bool true, rest)
    | 'f' :: 'a' :: 'l' :: 's' :: 'e' :: rest => some (.bool false, rest)
    | 'n' :: 'u' :: 'l' :: 'l' :: rest => some (.null, rest)
    | cs₁ =>
      match parseNumber cs₁ with
      | some (q, r) => some (.num q, r)
      | none => none

/-- Object body after the `{`: either an immediate `}` or a member list. -/
def pObj : Nat → List Char → Option (JVal × List Char)
  | 0, _ => none
  | fuel + 1, cs =>
    match skipWs cs with
    | '}' :: rest => some (.obj [], rest)
    | cs₁ => pMembers fuel cs₁ []

/-- Non-empty member list of an object: `"key" : value` pairs separated by
commas, closed by `}`. -/
def pMembers : Nat → List Char → List (String × JVal) → Option (JVal × List Char)
  | 0, _, _ => none
  | fuel + 1, cs, acc =>
    match skipWs cs with
    | '"' :: rest =>
      match strLit rest with
      | some (k, r) =>
        match skipWs r with
        | ':' :: r₂ =>
          match pVal fuel r₂ with
          | some (v, r₃) =>
            match skipWs r₃ with
            | ',' :: r₄ => pMembers fuel r₄ (acc ++ [(k, v)])
            | '}' :: r₄ => some (.obj (acc ++ [(k, v)]), r₄)
            | _ => none
          | none => none
        | _ => none
      | none => none
    | _ => none

/-- Array body after the `[`: either an immediate `]` or an element list. -/
def pArr : Nat → List Char → Option (JVal × List Char)
  | 0, _ => none
  | fuel + 1, cs =>
    match skipWs cs with
    | ']' :: rest => some (.arr [], rest)
    | cs₁ => pElems fuel cs₁ []

/-- Non-empty element list of an array: values separated by commas, closed
by `]`. -/
def pElems : Nat → List Char → List JVal → Option (JVal × List Char)
  | 0, _, _ => none
  | fuel + 1, cs, acc =>
    match pVal fuel cs with
    | some (v, r) =>
      match skipWs r with
      | ',' :: r₂ => pElems fuel r₂ (acc ++ [v])
      | ']' :: r₂ => some (.arr (acc ++ [v]), r₂)
      | _ => none
    | none => none

end

/-- `JSON.parse(s)` without a reviver: one value, surrounded by nothing but
whitespace; `none` models the thrown `SyntaxError`.  Every recursive call in
the mutual block above consumes fuel, and every two units of fuel consume at
least one input character, so `3 * |s| + 8` units can never run out. -/
def jsonParse (s : String) : Option JVal :=
  let cs := s.toList
  match pVal (3 * cs.length + 8) cs with
  | some (v, rest) => if (skipWs rest).isEmpty then some v else none
  | none => none

/-! ## `extractJSON` -/

/-- Index of the last occurrence of `c`, if any. -/
def lastIdxOf (cs : List Char) (c : Char) : Option Nat :=
  match cs with
  | [] => none
  | x :: tl =>
    match lastIdxOf tl c with
    | some k => some (k + 1)
    | none => if x = c then some 0 else none

/-- The match of `/\{[\s\S]*\}|\[[\s\S]*\]/` against the suffix starting at
absolute index `i`, scanning left to right: the first position holding a `{`
with a later `}` (that alternative runs to the *last* such `}`, since `*` is
greedy) or a `[` with a later `]` (running to the last such `]`).  Returns
the absolute start and end indices of the match. -/
def spanScan : Nat → List Char → Option (Nat × Nat)
  | _, [] => none
  | i, ch :: tail =>
    if ch = '{' then
      match lastIdxOf tail '}' with
      | some k => some (i, i + 1 + k)
      | none => spanScan (i + 1) tail
    else if ch = '[' then
      match lastIdxOf tail ']' with
      | some k => some (i, i + 1 + k)
      | none => spanScan (i + 1) tail
    else spanScan (i + 1) tail

/-- `text.match(/\{[\s\S]*\}|\[[\s\S]*\]/)` reduced to its matched
substring (`jsonMatch[0]`), or `none` when the regex does not match. -/
def jsonMatch (s : String) : Option String :=
  match spanScan 0 s.toList with
  | some (i, j) => some (String.mk ((s.toList.drop i).take (j - i + 1)))
  | none => none

/-- `extractJSON(text)` (lines 51–60 of `src/api/claude.js`): `null` unless
`text` is a string; otherwise one regex match and one `JSON.parse` attempt
on it, with a parse failure caught and turned into `null`. -/
def extractJSON (text : JVal) : JVal :=
  match text with
  | .str s =>
    match jsonMatch s with
    | some m =>
      match jsonParse m with
      | some v => v
      | none => .null
    | none => .null
  | _ => .null

/-! ## The request-level decision of `POST /analyze-complaints` -/

/-- The three ways the handler answers once the provider has responded with
a text (lines 140–150 of `src/api/claude.js`): the 200 success body
`{count, results}`, the 502 body `{error, raw}`, and the `catch`-clause 500
body `{error, detail}` reached when post-processing throws. -/
inductive ApiResponse where
  | okResp (count : Nat) (results : List NormItem)
  | badGateway (error : String) (raw : String)
  | serverError (error : String) (detail : String)

/-- Lines 140–150 of `src/api/claude.js`, from the provider's text onward:

`const rawText = response.data?.content?.[0]?.text || ''` (modelled for the
case the provider text field is a string or absent, so `rawText` is a
string), then `extractJSON`, then `normalizeResults`; an empty normalized
sequence answers 502 with `raw: rawText.slice(0, 1000)`, a non-empty one
answers 200 with `{count, results}`, and a `TypeError` thrown by
normalization lands in the handler's `catch`, answering 500. -/
def analyzeRespond (rawText : String) (limitedComplaints : List JVal) : ApiResponse :=
  match normalizeResults (extractJSON (.str rawText)) limitedComplaints with
  | .error e => .serverError "Analysis failed" e
  | .ok normalized =>
    if normalized.length = 0 then
      .badGateway "Unable to parse AI response" (String.mk (rawText.toList.take 1000))
    else
      .okResp normalized.length normalized

deriving instance DecidableEq for Except

/-! ## Predicates used to state the claims -/

/-- Whether a value is a string. -/
def isStr : JVal → Bool
  | .str _ => true
  | _ => false

/-- Whether a value is not `null`. -/
def notNullB : JVal → Bool
  | .null => false
  | _ => true

/-- `typeof v === 'number'` for a JSON-producible value. -/
def isNum : JVal → Bool
  | .num _ => true
  | _ => false

/-- `Array.isArray(v)`. -/
def isArr : JVal → Bool
  | .arr _ => true
  | _ => false

/-- The elements on which the `map` callback provably returns instead of
throwing: non-`null`, priority coercion does not hit an own-`toString` trap,
and no `null` among the first ten issue entries. -/
def itemOk (item : JVal) : Bool :=
  match item with
  | .null => false
  | _ =>
    (match priorityCoerce item with
     | .ok _ => true
     | .error _ => false) &&
    (match propLookup item "issues" with
     | some (.arr ys) => (ys.take 10).all notNullB
     | _ => true)

/-- A property read that is falsy: absent (`undefined`), `null`, `''`, `0`,
or `false`. -/
def falsyField : Option JVal → Bool
  | none => true
  | some v => !truthy v

/-- A property read that is either absent or a non-empty string — the shape
claim C9 assumes of the input batch's `id` and `complaintId` fields. -/
def goodIdField : Option JVal → Bool
  | none => true
  | some (.str s) => s != ""
  | some _ => false

/-- Index of the last character satisfying `p`, if any. -/
def lastIdxWhere (p : Char → Bool) : List Char → Option Nat
  | [] => none
  | x :: tl =>
    match lastIdxWhere p tl with
    | some k => some (k + 1)
    | none => if p x then some 0 else none

/-- The extractor as claim C7 words it: one parse attempt on the span from
the earliest `{` or `[` anywhere in the string to the last `}` or `]`
anywhere in the string, absent if no such span exists or the parse fails.
Stated from the claim's words, to be compared with `extractJSON`. -/
def claimExtract (s : String) : JVal :=
  let cs := s.toList
  match cs.findIdx? (fun c => c = '{' || c = '['),
      lastIdxWhere (fun c => c = '}' || c = ']') cs with
  | some i, some j =>
    if i < j then
      match jsonParse (String.mk ((cs.drop i).take (j - i + 1))) with
      | some v => v
      | none => JVal.null
    else JVal.null
  | _, _ => JVal.null

/-- Position `i` can start a regex match: it holds a `{` with a later `}`,
or a `[` with a later `]`. -/
def viable (cs : List Char) (i : Nat) : Bool :=
  match cs.get? i with
  | some '{' => (cs.drop (i + 1)).contains '}'
  | some '[' => (cs.drop (i + 1)).contains ']'
  | _ => false

/-- The span ending rule at a chosen start `i`: from a `{` the span runs to
the last `}` strictly after `i`, otherwise to the last `]` strictly after
`i` (at a start chosen by `viable` the non-`{` character is a `[`). -/
def closerSpan (cs : List Char) (i : Nat) : Option (Nat × Nat) :=
  match cs.get? i with
  | some '{' => (lastIdxOf (cs.drop (i + 1)) '}').map fun k => (i, i + 1 + k)
  | _ => (lastIdxOf (cs.drop (i + 1)) ']').map fun k => (i, i + 1 + k)

/-- The span selection as the amended claim words it: the earliest position
holding a `{` with a later `}` or a `[` with a later `]`; from a `{` the
span runs to the last `}` of the string, from a `[` to the last `]`.
Stated from the amended claim's words, to be compared with `spanScan`. -/
def amendedPair (cs : List Char) : Option (Nat × Nat) :=
  match (List.range cs.length).find? (viable cs) with
  | some i => closerSpan cs i
  | none => none

/-- The whole extractor as the amended claim words it: a single parse
attempt on the `amendedPair` span, absent on no span or parse failure. -/
def amendedExtract (s : String) : JVal :=
  match (amendedPair s.toList).map
      (fun p => String.mk ((s.toList.drop p.1).take (p.2 - p.1 + 1))) with
  | some m =>
    match jsonParse m with
    | some v => v
    | none => JVal.null
  | none => JVal.null

/-! ## Notation-free facts about `jsOr` -/

theorem jsOr_some_truthy {v d : JVal} (h : truthy v = true) : jsOr (some v) d = v := by
  simp [jsOr, h]

theorem jsOr_some_falsy {v d : JVal} (h : truthy v = false) : jsOr (some v) d = d := by
  simp [jsOr, h]

theorem jsOr_none (d : JVal) : jsOr none d = d := rfl

/-! ## Inversion and totality lemmas for the normalizer -/

/-- Inverting a successful run of the `map` callback: every output field is
the value the corresponding line of the source computes. -/
theorem normalizeItem_fields {item base : JVal} {idx : Nat} {r : NormItem}
    (h : normalizeItem item base idx = Except.ok r) :
    r.raw = item ∧
    r.id = idChain item base idx ∧
    r.summary = jsOr (propLookup item "summary") (JVal.str "") ∧
    r.risk_score = riskScoreOf item ∧
    (∃ pRaw, priorityCoerce item = Except.ok pRaw ∧
      r.priority =
        (if allowedPriorities.contains (asciiLower pRaw) then asciiLower pRaw
         else "medium")) ∧
    issuesOf item = Except.ok r.issues := by
  cases item <;> simp only [normalizeItem] at h
  case null => cases h
  all_goals
    split at h
    · cases h
    · split at h
      · cases h
      · cases h
        refine ⟨rfl, rfl, rfl, rfl, ⟨_, by assumption, rfl⟩, by
          rw [show issuesOf _ = _ from by assumption]⟩

/-- A successful `map` run yields exactly one output row per model row. -/
theorem normalizeResultsAux_length {items batch : List JVal} {idx : Nat} {out : List NormItem}
    (h : normalizeResultsAux items batch idx = Except.ok out) :
    out.length = items.length := by
  induction items generalizing idx out with
  | nil =>
    simp only [normalizeResultsAux] at h
    cases h
    rfl
  | cons item rest ih =>
    simp only [normalizeResultsAux] at h
    split at h
    · cases h
    · split at h
      · cases h
      · rename_i rs hrs
        cases h
        simp [ih hrs]

/-- In a successful `map` run, output row `i` carries model row `i` as its
`raw` field. -/
theorem normalizeResultsAux_raw {items batch : List JVal} {idx : Nat} {out : List NormItem}
    (h : normalizeResultsAux items batch idx = Except.ok out) :
    ∀ i : Nat, (out.get? i).map NormItem.raw = items.get? i := by
  induction items generalizing idx out with
  | nil =>
    simp only [normalizeResultsAux] at h
    cases h
    intro i
    rfl
  | cons item rest ih =>
    simp only [normalizeResultsAux] at h
    split at h
    · cases h
    · rename_i r hr
      split at h
      · cases h
      · rename_i rs hrs
        cases h
        intro i
        cases i with
        | zero => simp [(normalizeItem_fields hr).1]
        | succ i => simpa using ih hrs i

/-- Every row of a successful `map` run is a successful run of the callback
on some element. -/
theorem normalizeResultsAux_mem {items batch : List JVal} {idx : Nat} {out : List NormItem}
    (h : normalizeResultsAux items batch idx = Except.ok out) :
    ∀ r ∈ out, ∃ item base i, normalizeItem item base i = Except.ok r := by
  induction items generalizing idx out with
  | nil =>
    simp only [normalizeResultsAux] at h
    cases h
    intro r hr
    cases hr
  | cons item rest ih =>
    simp only [normalizeResultsAux] at h
    split at h
    · cases h
    · rename_i r hr
      split at h
      · cases h
      · rename_i rs hrs
        cases h
        intro x hx
        rcases List.mem_cons.mp hx with rfl | hx
        · exact ⟨item, _, _, hr⟩
        · exact ih hrs x hx

/-- The issue projection returns on every non-`null` entry. -/
theorem projectIssue_ok {y : JVal} (hy : notNullB y = true) :
    ∃ r, projectIssue y = Except.ok r := by
  cases y
  case null => simp [notNullB] at hy
  all_goals exact ⟨_, rfl⟩

/-- Inverting a successful issue projection: each field is the `||`-chain
the source computes. -/
theorem projectIssue_fields {issue : JVal} {r : NormIssue}
    (h : projectIssue issue = Except.ok r) :
    r.text = jsOr (propLookup issue "text") (JVal.str "") ∧
    r.rationale =
      jsOr (propLookup issue "rationale") (jsOr (propLookup issue "reason") (JVal.str "")) ∧
    r.risk_category =
      jsOr (propLookup issue "risk_category") (jsOr (propLookup issue "category") JVal.null) := by
  cases issue
  case null => simp [projectIssue] at h
  all_goals
    injection h with h
    subst h
    exact ⟨rfl, rfl, rfl⟩

/-- Mapping the projection returns whenever every entry is non-`null`. -/
theorem mapIssues_ok {ys : List JVal} (hall : ∀ y ∈ ys, notNullB y = true) :
    ∃ rs, mapIssues ys = Except.ok rs := by
  induction ys with
  | nil => exact ⟨[], rfl⟩
  | cons y ys ih =>
    obtain ⟨r, hr⟩ := projectIssue_ok (hall y (List.mem_cons_self y ys))
    obtain ⟨rs, hrs⟩ := ih fun z hz => hall z (List.mem_cons_of_mem y hz)
    exact ⟨r :: rs, by simp [mapIssues, hr, hrs]⟩

/-- A successful projection run keeps the entry count. -/
theorem mapIssues_length {ys : List JVal} {rs : List NormIssue}
    (h : mapIssues ys = Except.ok rs) : rs.length = ys.length := by
  induction ys generalizing rs with
  | nil =>
    simp only [mapIssues] at h
    cases h
    rfl
  | cons y ys ih =>
    simp only [mapIssues] at h
    split at h
    · cases h
    · split at h
      · cases h
      · rename_i tl htl
        cases h
        simp [ih htl]

/-- Unpacking `itemOk`: the element is non-`null`, its priority coercion
returns, and its issue projection returns. -/
theorem itemOk_split {item : JVal} (hok : itemOk item = true) :
    item ≠ JVal.null ∧ (∃ p, priorityCoerce item = Except.ok p) ∧
      ∃ iss, issuesOf item = Except.ok iss := by
  cases item
  case null => simp [itemOk] at hok
  all_goals
    simp only [itemOk] at hok
    rw [Bool.and_eq_true] at hok
    obtain ⟨h₁, h₂⟩ := hok
    refine ⟨by simp, ?_, ?_⟩
    · revert h₁
      split
      · rename_i p hp
        exact fun _ => ⟨p, hp⟩
      · exact fun hf => absurd hf (by simp)
    · simp only [issuesOf]
      split
      · rename_i ys heq
        rw [heq] at h₂
        simp only [] at h₂
        exact mapIssues_ok fun y hy => List.all_eq_true.mp h₂ y hy
      · exact ⟨[], rfl⟩

/-- The `map` callback returns on every element satisfying `itemOk`. -/
theorem normalizeItem_ok {item : JVal} (hok : itemOk item = true) (base : JVal) (idx : Nat) :
    ∃ r, normalizeItem item base idx = Except.ok r := by
  obtain ⟨hnn, ⟨p, hp⟩, ⟨iss, hiss⟩⟩ := itemOk_split hok
  cases item
  case null => exact absurd rfl hnn
  all_goals
    simp only [normalizeItem, hp, hiss]
    exact ⟨_, rfl⟩

/-- The whole `map` returns whenever every element satisfies `itemOk`. -/
theorem normalizeResultsAux_ok {items : List JVal} (batch : List JVal) (idx : Nat)
    (hall : ∀ item ∈ items, itemOk item = true) :
    ∃ out, normalizeResultsAux items batch idx = Except.ok out := by
  induction items generalizing idx with
  | nil => exact ⟨[], rfl⟩
  | cons item rest ih =>
    obtain ⟨r, hr⟩ := normalizeItem_ok (hall item (List.mem_cons_self _ _)) (baseFor batch idx) idx
    obtain ⟨rs, hrs⟩ := ih (idx + 1) fun z hz => hall z (List.mem_cons_of_mem _ hz)
    exact ⟨r :: rs, by simp [normalizeResultsAux, hr, hrs]⟩

/-! ## The regex span: `spanScan` computes the `amendedPair` selection -/

theorem lastIdxOf_eq_none_iff (cs : List Char) (c : Char) :
    lastIdxOf cs c = none ↔ cs.contains c = false := by
  induction cs with
  | nil => simp [lastIdxOf]
  | cons x tl ih =>
    simp only [lastIdxOf]
    rcases h : lastIdxOf tl c with - | k
    · rcases hc : decide (x = c) with - | -
      · simp_all [List.contains_cons]
        tauto
      · simp_all [List.contains_cons]
    · simp only []
      constructor
      · intro hh
        cases hh
      · intro hh
        rw [List.contains_cons] at hh
        have := ih.mpr (by simp_all)
        rw [this] at h
        cases h

theorem viable_cons_succ (c : Char) (tl : List Char) (i : Nat) :
    viable (c :: tl) (i + 1) = viable tl i := rfl

theorem viable_zero (c : Char) (tl : List Char) :
    viable (c :: tl) 0 =
      (if c = '{' then tl.contains '}' else if c = '[' then tl.contains ']' else false) := by
  by_cases h₁ : c = '{'
  · subst h₁
    rfl
  · by_cases h₂ : c = '['
    · subst h₂
      rw [if_neg h₁, if_pos rfl]
      rfl
    · rw [if_neg h₁, if_neg h₂]
      unfold viable
      split
      · rename_i heq
        injection heq with heq
        exact absurd heq h₁
      · rename_i heq
        injection heq with heq
        exact absurd heq h₂
      · rfl

theorem closerSpan_zero (c : Char) (tl : List Char) :
    closerSpan (c :: tl) 0 =
      (if c = '{' then (lastIdxOf tl '}').map fun k => (0, 1 + k)
       else (lastIdxOf tl ']').map fun k => (0, 1 + k)) := by
  by_cases h₁ : c = '{'
  · subst h₁
    rfl
  · rw [if_neg h₁]
    unfold closerSpan
    split
    · rename_i heq
      injection heq with heq
      exact absurd heq h₁
    · rfl

theorem closerSpan_cons_succ (c : Char) (tl : List Char) (i : Nat) :
    closerSpan (c :: tl) (i + 1) = (closerSpan tl i).map fun p => (p.1 + 1, p.2 + 1) := by
  unfold closerSpan
  have hg : (c :: tl).get? (i + 1) = tl.get? i := rfl
  have hd : (c :: tl).drop (i + 1 + 1) = tl.drop (i + 1) := rfl
  rw [hg, hd]
  split
  · rcases lastIdxOf (tl.drop (i + 1)) '}' with - | k
    all_goals simp
    omega
  · rcases lastIdxOf (tl.drop (i + 1)) ']' with - | k
    all_goals simp
    omega

theorem amendedPair_cons_viable_true (c : Char) (tl : List Char)
    (h : viable (c :: tl) 0 = true) :
    amendedPair (c :: tl) = closerSpan (c :: tl) 0 := by
  unfold amendedPair
  rw [show List.range (c :: tl).length = 0 :: (List.range tl.length).map Nat.succ from
    List.range_succ_eq_map _]
  rw [List.find?_cons_of_pos _ h]

theorem amendedPair_cons_viable_false (c : Char) (tl : List Char)
    (h : viable (c :: tl) 0 = false) :
    amendedPair (c :: tl) = (amendedPair tl).map fun p => (p.1 + 1, p.2 + 1) := by
  unfold amendedPair
  rw [show List.range (c :: tl).length = 0 :: (List.range tl.length).map Nat.succ from
    List.range_succ_eq_map _]
  rw [List.find?_cons_of_neg _ (by simp [h])]
  rw [List.find?_map]
  have hcomp : (viable (c :: tl)) ∘ Nat.succ = viable tl :=
    funext fun i => viable_cons_succ c tl i
  rw [hcomp]
  rcases hf : List.find? (viable tl) (List.range tl.length) with - | i
  · rfl
  · simp only [Option.map_some']
    exact closerSpan_cons_succ c tl i

/-- The regex scan selects exactly the span the amended claim describes. -/
theorem spanScan_eq_amendedPair (cs : List Char) : ∀ n : Nat,
    spanScan n cs = (amendedPair cs).map fun p => (p.1 + n, p.2 + n) := by
  induction cs with
  | nil => intro n; rfl
  | cons c tl ih =>
    intro n
    by_cases hv : viable (c :: tl) 0 = true
    · rw [amendedPair_cons_viable_true c tl hv, closerSpan_zero]
      rw [viable_zero] at hv
      by_cases h₁ : c = '{'
      · subst h₁
        rw [if_pos rfl] at hv ⊢
        rcases hk : lastIdxOf tl '}' with - | k
        · rw [(lastIdxOf_eq_none_iff tl _).mp hk] at hv
          cases hv
        · simp only [spanScan, if_pos rfl, hk]
          simp
          omega
      · have h₂ : c = '[' := by
          by_cases h₂ : c = '['
          · exact h₂
          · rw [if_neg h₁, if_neg h₂] at hv
            cases hv
        subst h₂
        rw [if_neg h₁] at hv ⊢
        rcases hk : lastIdxOf tl ']' with - | k
        · rw [(lastIdxOf_eq_none_iff tl _).mp hk] at hv
          cases hv
        · simp only [spanScan, if_neg h₁, if_pos rfl, hk]
          simp
          omega
    · rw [Bool.not_eq_true] at hv
      rw [amendedPair_cons_viable_false c tl hv]
      have key : spanScan n (c :: tl) = spanScan (n + 1) tl := by
        rw [viable_zero] at hv
        by_cases h₁ : c = '{'
        · subst h₁
          rw [if_pos rfl] at hv
          simp only [spanScan, if_pos rfl, (lastIdxOf_eq_none_iff tl _).mpr hv]
          simp
        · by_cases h₂ : c = '['
          · subst h₂
            rw [if_neg h₁, if_pos rfl] at hv
            simp only [spanScan, if_neg h₁, if_pos rfl, (lastIdxOf_eq_none_iff tl _).mpr hv]
            simp
          · simp only [spanScan, if_neg h₁, if_neg h₂]
      rw [key, ih (n + 1)]
      rcases amendedPair tl with - | p
      · rfl
      · simp
        omega

/-- The whole extractor equals its amended-claim description. -/
theorem extractJSON_eq_amendedExtract (s : String) :
    extractJSON (JVal.str s) = amendedExtract s := by
  have h₁ : extractJSON (JVal.str s) =
      (match jsonMatch s with
       | some m =>
         match jsonParse m with
         | some v => v
         | none => JVal.null
       | none => JVal.null) := rfl
  rw [h₁]
  unfold amendedExtract jsonMatch
  rw [spanScan_eq_amendedPair s.toList 0]
  rcases amendedPair s.toList with - | p
  · rfl
  · rcases p with ⟨i, j⟩
    simp only [Option.map_some', Nat.add_zero]

/-- A falsy-or-absent left operand makes `a || d` take the right operand. -/
theorem jsOr_falsy_opt {a : Option JVal} {d : JVal} (h : falsyField a = true) :
    jsOr a d = d := by
  cases a
  · rfl
  · rename_i v
    simp [falsyField] at h
    exact jsOr_some_falsy (by simpa using h)

/-- The synthetic placeholder id is never the empty string. -/
theorem row_ne_empty (idx : Nat) : ("row-" ++ toString idx) ≠ "" := by
  intro he
  have h₁ := congrArg String.data he
  rw [String.data_append] at h₁
  have h₂ := (List.append_eq_nil.mp h₁).1
  exact absurd h₂ (by decide)

/-! ## The claims -/

/-- Claim C1 fails as stated: `normalizeResults` does **not** return
normally on every parsed array.  On the parsed array `[null]` — a value
`JSON.parse` can produce — the callback's first property read `item.id`
throws a `TypeError`, so the whole request falls into the route's `catch`
instead of returning a sequence. -/
theorem c1_counterexample :
    normalizeResults (JVal.arr [JVal.null]) [] =
      Except.error "TypeError: Cannot read properties of null" := rfl

/-- Claim C1 (amended): for every parsed array and every input batch,
`normalizeResults` returns normally provided each array element is
non-`null`, its priority value does not carry an own `toString` property,
and no `null` occurs among the first ten entries of its `issues` array
(`itemOk`); the returned sequence then has exactly — in particular no more
than — the parsed array's length.  Wrong-typed elements, missing fields and
extra fields are all covered: `itemOk` holds for every non-`null`
non-object and for every object free of the two traps. -/
theorem c1_normalizer_total_amended (xs batch : List JVal)
    (hall : ∀ item ∈ xs, itemOk item = true) :
    ∃ out, normalizeResults (JVal.arr xs) batch = Except.ok out ∧
      out.length = xs.length ∧ out.length ≤ xs.length := by
  obtain ⟨out, hout⟩ := normalizeResultsAux_ok batch 0 hall
  exact ⟨out, hout, normalizeResultsAux_length hout, le_of_eq (normalizeResultsAux_length hout)⟩

/-- Concrete instance of the amended claim C1: a two-element parsed array of
a wrong-typed priority object and a bare number normalizes to exactly two
rows. -/
theorem c1_witness :
    (∀ item ∈ [JVal.obj [("priority", JVal.str "high")], JVal.num 3], itemOk item = true) ∧
    ∃ out,
      normalizeResults (JVal.arr [JVal.obj [("priority", JVal.str "high")], JVal.num 3]) [] =
        Except.ok out ∧
      out.length = [JVal.obj [("priority", JVal.str "high")], JVal.num 3].length ∧
      out.length ≤ [JVal.obj [("priority", JVal.str "high")], JVal.num 3].length :=
  ⟨by decide, c1_normalizer_total_amended _ [] (by decide)⟩

/-- Claim C2 fails as stated: the normalized length does **not** equal the
truncated input batch's length.  The parsed array `[{}]` against an empty
batch normalizes to one row while the batch has zero. -/
theorem c2_counterexample :
    ¬ ∀ (xs batch : List JVal) (out : List NormItem),
        normalizeResults (JVal.arr xs) batch = Except.ok out → out.length = batch.length := by
  intro h
  have h₁ : normalizeResults (JVal.arr [JVal.obj []]) [] =
      Except.ok [⟨JVal.str "row-0", "medium", JVal.str "", JVal.null, [], JVal.obj []⟩] := rfl
  have h₂ := h _ _ _ h₁
  simp at h₂

/-- Claim C2 (amended): whenever the parsed model output is structurally an
array and normalization returns, the length of the normalized results
equals the length of the **parsed array** (not of the input batch), and
each result's `raw` field is the model's element at the same positional
index. -/
theorem c2_length_follows_model_amended (xs batch : List JVal) (out : List NormItem)
    (h : normalizeResults (JVal.arr xs) batch = Except.ok out) :
    out.length = xs.length ∧
    ∀ i : Nat, (out.get? i).map NormItem.raw = xs.get? i :=
  ⟨normalizeResultsAux_length h, normalizeResultsAux_raw h⟩

/-- Concrete instance of the amended claim C2 on the one-element parsed
array `[{}]`. -/
theorem c2_witness :
    ([⟨JVal.str "row-0", "medium", JVal.str "", JVal.null, [], JVal.obj []⟩] : List NormItem).length =
      [JVal.obj []].length ∧
    ∀ i : Nat,
      (([⟨JVal.str "row-0", "medium", JVal.str "", JVal.null, [],
          JVal.obj []⟩] : List NormItem).get? i).map
        NormItem.raw = [JVal.obj []].get? i :=
  c2_length_follows_model_amended [JVal.obj []] [] _ rfl

/-- Claim C3 fails as stated: a wrong-case priority does **not** normalize
to `medium`.  The code lowercases before the membership test, so the input
priority `"URGENT"` normalizes to `"urgent"`. -/
theorem c3_counterexample :
    (normalizeResults (JVal.arr [JVal.obj [("priority", JVal.str "URGENT")]]) []).map
        (fun out => out.map NormItem.priority) = Except.ok ["urgent"] ∧
    "urgent" ≠ "medium" := by decide

/-- Claim C3 (amended): every normalized priority lies in
`{urgent, medium, low}`; an element whose priority coerces (after
string-coercion and ASCII lowercasing) to a word **in** the set normalizes
to that word — covering wrong-case spellings — and one whose coercion lies
**outside** the set, including non-strings that do not coerce into it and
the absent case, normalizes to `medium`. -/
theorem c3_priority_domain_amended (raw : JVal) (batch : List JVal) (out : List NormItem)
    (h : normalizeResults raw batch = Except.ok out) :
    (∀ r ∈ out, r.priority ∈ allowedPriorities) ∧
    (∀ item base idx r pRaw, normalizeItem item base idx = Except.ok r →
      priorityCoerce item = Except.ok pRaw →
      (asciiLower pRaw ∈ allowedPriorities → r.priority = asciiLower pRaw) ∧
      (asciiLower pRaw ∉ allowedPriorities → r.priority = "medium")) ∧
    (∀ item base idx r, normalizeItem item base idx = Except.ok r →
      propLookup item "priority" = none → r.priority = "medium") := by
  refine ⟨?_, ?_, ?_⟩
  · intro r hr
    have hmem : ∃ item base i, normalizeItem item base i = Except.ok r := by
      cases raw <;> simp only [normalizeResults] at h
      case arr items => exact normalizeResultsAux_mem h r hr
      all_goals
        cases h
        cases hr
    obtain ⟨item, base, i, hitem⟩ := hmem
    obtain ⟨-, -, -, -, ⟨pRaw, hpc, hpr⟩, -⟩ := normalizeItem_fields hitem
    rw [hpr]
    by_cases hc : allowedPriorities.contains (asciiLower pRaw) = true
    · rw [if_pos hc]
      exact List.elem_iff.mp hc
    · rw [if_neg hc]
      decide
  · intro item base idx r pRaw hitem hpc
    obtain ⟨-, -, -, -, ⟨pRaw₂, hpc₂, hpr⟩, -⟩ := normalizeItem_fields hitem
    rw [hpc] at hpc₂
    injection hpc₂ with hpe
    subst hpe
    constructor
    · intro hmem
      rw [hpr, if_pos (List.elem_iff.mpr hmem)]
    · intro hnmem
      rw [hpr, if_neg (fun hc => hnmem (List.elem_iff.mp hc))]
  · intro item base idx r hitem hnone
    obtain ⟨-, -, -, -, ⟨pRaw, hpc, hpr⟩, -⟩ := normalizeItem_fields hitem
    have hcv : priorityCoerce item = Except.ok "" := by
      unfold priorityCoerce
      rw [hnone]
      rfl
    rw [hcv] at hpc
    injection hpc with hpe
    subst hpe
    rw [hpr]
    decide

/-- Concrete instance of the amended claim C3: the wrong-case priority
`"LOW"` normalizes to `"low"`, a member of the allowed set. -/
theorem c3_witness :
    (∀ r ∈ ([⟨JVal.str "row-0", "low", JVal.str "", JVal.null, [],
        JVal.obj [("priority", JVal.str "LOW")]⟩] : List NormItem),
      r.priority ∈ allowedPriorities) ∧
    (∀ item base idx r pRaw, normalizeItem item base idx = Except.ok r →
      priorityCoerce item = Except.ok pRaw →
      (asciiLower pRaw ∈ allowedPriorities → r.priority = asciiLower pRaw) ∧
      (asciiLower pRaw ∉ allowedPriorities → r.priority = "medium")) ∧
    (∀ item base idx r, normalizeItem item base idx = Except.ok r →
      propLookup item "priority" = none → r.priority = "medium") :=
  c3_priority_domain_amended (JVal.arr [JVal.obj [("priority", JVal.str "LOW")]]) [] _ rfl

/-- Claim C4 fails as stated: the normalized summary is **not** always a
string.  `item.summary || ''` passes any truthy value through unchanged, so
the numeric summary `5` stays the number `5` in the output. -/
theorem c4_counterexample :
    (normalizeResults (JVal.arr [JVal.obj [("summary", JVal.num 5)]]) []).map
        (fun out => out.map fun r => isStr r.summary) = Except.ok [false] := by decide

/-- Claim C4 (amended): the normalized summary is never `null` (or
`undefined`); a string summary is copied verbatim (the empty string
included); an absent or falsy summary becomes the empty string; but a
truthy **non-string** summary passes through unchanged, so the output
summary need not be a string. -/
theorem c4_summary_amended (item base : JVal) (idx : Nat) (r : NormItem)
    (h : normalizeItem item base idx = Except.ok r) :
    r.summary ≠ JVal.null ∧
    (∀ s, propLookup item "summary" = some (JVal.str s) → r.summary = JVal.str s) ∧
    (propLookup item "summary" = none → r.summary = JVal.str "") ∧
    (∀ v, propLookup item "summary" = some v → truthy v = false → r.summary = JVal.str "") ∧
    (∀ v, propLookup item "summary" = some v → truthy v = true → r.summary = v) := by
  obtain ⟨-, -, hs, -, -, -⟩ := normalizeItem_fields h
  refine ⟨?_, ?_, ?_, ?_, ?_⟩
  · rw [hs]
    rcases hp : propLookup item "summary" with - | v
    · simp [jsOr]
    · by_cases ht : truthy v = true
      · rw [jsOr_some_truthy ht]
        intro hv
        rw [hv] at ht
        simp [truthy] at ht
      · rw [Bool.not_eq_true] at ht
        rw [jsOr_some_falsy ht]
        simp
  · intro s hp
    rw [hs, hp]
    by_cases he : s = ""
    · subst he
      rw [jsOr_some_falsy (by simp [truthy])]
    · rw [jsOr_some_truthy (by simp [truthy, he])]
  · intro hp
    rw [hs, hp]
    rfl
  · intro v hp ht
    rw [hs, hp, jsOr_some_falsy ht]
  · intro v hp ht
    rw [hs, hp, jsOr_some_truthy ht]

/-- Concrete instance of the amended claim C4 on an element whose summary
is the string `"hello"`. -/
theorem c4_witness :
    (⟨JVal.str "row-0", "medium", JVal.str "hello", JVal.null, [],
        JVal.obj [("summary", JVal.str "hello")]⟩ : NormItem).summary ≠ JVal.null ∧
    (∀ s, propLookup (JVal.obj [("summary", JVal.str "hello")]) "summary" = some (JVal.str s) →
      (⟨JVal.str "row-0", "medium", JVal.str "hello", JVal.null, [],
        JVal.obj [("summary", JVal.str "hello")]⟩ : NormItem).summary = JVal.str s) ∧
    (propLookup (JVal.obj [("summary", JVal.str "hello")]) "summary" = none →
      (⟨JVal.str "row-0", "medium", JVal.str "hello", JVal.null, [],
        JVal.obj [("summary", JVal.str "hello")]⟩ : NormItem).summary = JVal.str "") ∧
    (∀ v, propLookup (JVal.obj [("summary", JVal.str "hello")]) "summary" = some v →
      truthy v = false →
      (⟨JVal.str "row-0", "medium", JVal.str "hello", JVal.null, [],
        JVal.obj [("summary", JVal.str "hello")]⟩ : NormItem).summary = JVal.str "") ∧
    (∀ v, propLookup (JVal.obj [("summary", JVal.str "hello")]) "summary" = some v →
      truthy v = true →
      (⟨JVal.str "row-0", "medium", JVal.str "hello", JVal.null, [],
        JVal.obj [("summary", JVal.str "hello")]⟩ : NormItem).summary = v) :=
  c4_summary_amended (JVal.obj [("summary", JVal.str "hello")]) (JVal.obj []) 0 _ rfl

/-- Claim C5 holds: every normalized `risk_score` is either the absent
marker `null` or a number clamped into `[0, 100]`; a numeric input `q`
normalizes to `min 100 (max 0 q)`, a non-numeric or absent input to
`null`; in particular `-5` normalizes to `0` and `150` to `100`. -/
theorem c5_risk_score_clamped (raw : JVal) (batch : List JVal) (out : List NormItem)
    (h : normalizeResults raw batch = Except.ok out) :
    (∀ r ∈ out, r.risk_score = JVal.null ∨
      ∃ q : Rat, r.risk_score = JVal.num q ∧ 0 ≤ q ∧ q ≤ 100) ∧
    (∀ item base idx r, normalizeItem item base idx = Except.ok r →
      (∀ q : Rat, propLookup item "risk_score" = some (JVal.num q) →
        r.risk_score = JVal.num (min 100 (max 0 q))) ∧
      (∀ v, propLookup item "risk_score" = some v → isNum v = false →
        r.risk_score = JVal.null) ∧
      (propLookup item "risk_score" = none → r.risk_score = JVal.null)) ∧
    (normalizeItem (JVal.obj [("risk_score", JVal.num (-5))]) (JVal.obj []) 0).map
      NormItem.risk_score = Except.ok (JVal.num 0) ∧
    (normalizeItem (JVal.obj [("risk_score", JVal.num 150)]) (JVal.obj []) 0).map
      NormItem.risk_score = Except.ok (JVal.num 100) := by
  refine ⟨?_, ?_, rfl, rfl⟩
  · intro r hr
    have hmem : ∃ item base i, normalizeItem item base i = Except.ok r := by
      cases raw <;> simp only [normalizeResults] at h
      case arr items => exact normalizeResultsAux_mem h r hr
      all_goals
        cases h
        cases hr
    obtain ⟨item, base, i, hitem⟩ := hmem
    obtain ⟨-, -, -, hrs, -, -⟩ := normalizeItem_fields hitem
    rw [hrs]
    unfold riskScoreOf
    split
    · right
      exact ⟨_, rfl, le_min (by norm_num) (le_max_left 0 _), min_le_left _ _⟩
    · left
      rfl
  · intro item base idx r hitem
    obtain ⟨-, -, -, hrs, -, -⟩ := normalizeItem_fields hitem
    refine ⟨?_, ?_, ?_⟩
    · intro q hp
      rw [hrs]
      unfold riskScoreOf
      rw [hp]
    · intro v hp hv
      rw [hrs]
      unfold riskScoreOf
      rw [hp]
      cases v <;> simp [isNum] at hv ⊢
    · intro hp
      rw [hrs]
      unfold riskScoreOf
      rw [hp]

/-- Concrete instance of claim C5 on the parsed array
`[{risk_score: 7}]`. -/
theorem c5_witness :
    (∀ r ∈ ([⟨JVal.str "row-0", "medium", JVal.str "", JVal.num 7, [],
        JVal.obj [("risk_score", JVal.num 7)]⟩] : List NormItem),
      r.risk_score = JVal.null ∨ ∃ q : Rat, r.risk_score = JVal.num q ∧ 0 ≤ q ∧ q ≤ 100) ∧
    (∀ item base idx r, normalizeItem item base idx = Except.ok r →
      (∀ q : Rat, propLookup item "risk_score" = some (JVal.num q) →
        r.risk_score = JVal.num (min 100 (max 0 q))) ∧
      (∀ v, propLookup item "risk_score" = some v → isNum v = false →
        r.risk_score = JVal.null) ∧
      (propLookup item "risk_score" = none → r.risk_score = JVal.null)) ∧
    (normalizeItem (JVal.obj [("risk_score", JVal.num (-5))]) (JVal.obj []) 0).map
      NormItem.risk_score = Except.ok (JVal.num 0) ∧
    (normalizeItem (JVal.obj [("risk_score", JVal.num 150)]) (JVal.obj []) 0).map
      NormItem.risk_score = Except.ok (JVal.num 100) :=
  c5_risk_score_clamped (JVal.arr [JVal.obj [("risk_score", JVal.num 7)]]) []
    [⟨JVal.str "row-0", "medium", JVal.str "", JVal.num 7, [],
      JVal.obj [("risk_score", JVal.num 7)]⟩] rfl

/-- Claim C6 holds: an element whose `issues` field is not an array (or is
absent) normalizes to an empty issue sequence; an array `ys` normalizes to
exactly the projection of its first ten entries in order, of length
`min 10 |ys|`; in particular fifteen issue entries normalize to exactly
ten. -/
theorem c6_issue_cap (item base : JVal) (idx : Nat) (r : NormItem)
    (h : normalizeItem item base idx = Except.ok r) :
    (∀ ys, propLookup item "issues" = some (JVal.arr ys) →
      mapIssues (ys.take 10) = Except.ok r.issues ∧ r.issues.length = min 10 ys.length) ∧
    (∀ v, propLookup item "issues" = some v → isArr v = false → r.issues = []) ∧
    (propLookup item "issues" = none → r.issues = []) ∧
    (normalizeItem (JVal.obj [("issues", JVal.arr (List.replicate 15 (JVal.obj [])))])
        (JVal.obj []) 0).map (fun rr => rr.issues.length) = Except.ok 10 := by
  obtain ⟨-, -, -, -, -, hiss⟩ := normalizeItem_fields h
  refine ⟨?_, ?_, ?_, by decide⟩
  · intro ys hp
    unfold issuesOf at hiss
    rw [hp] at hiss
    refine ⟨hiss, ?_⟩
    rw [mapIssues_length hiss, List.length_take]
  · intro v hp hv
    unfold issuesOf at hiss
    rw [hp] at hiss
    cases v
    case arr => simp [isArr] at hv
    all_goals
      injection hiss with hiss
      exact hiss.symm
  · intro hp
    unfold issuesOf at hiss
    rw [hp] at hiss
    injection hiss with hiss
    exact hiss.symm

/-- Concrete instance of claim C6 on an element with no `issues` field. -/
theorem c6_witness :
    (∀ ys, propLookup (JVal.obj []) "issues" = some (JVal.arr ys) →
      mapIssues (ys.take 10) =
        Except.ok (⟨JVal.str "row-0", "medium", JVal.str "", JVal.null, [],
          JVal.obj []⟩ : NormItem).issues ∧
      (⟨JVal.str "row-0", "medium", JVal.str "", JVal.null, [],
        JVal.obj []⟩ : NormItem).issues.length = min 10 ys.length) ∧
    (∀ v, propLookup (JVal.obj []) "issues" = some v → isArr v = false →
      (⟨JVal.str "row-0", "medium", JVal.str "", JVal.null, [],
        JVal.obj []⟩ : NormItem).issues = []) ∧
    (propLookup (JVal.obj []) "issues" = none →
      (⟨JVal.str "row-0", "medium", JVal.str "", JVal.null, [],
        JVal.obj []⟩ : NormItem).issues = []) ∧
    (normalizeItem (JVal.obj [("issues", JVal.arr (List.replicate 15 (JVal.obj [])))])
        (JVal.obj []) 0).map (fun rr => rr.issues.length) = Except.ok 10 :=
  c6_issue_cap (JVal.obj []) (JVal.obj []) 0
    ⟨JVal.str "row-0", "medium", JVal.str "", JVal.null, [], JVal.obj []⟩ rfl

/-- Claim C7 fails as stated: the span is **not** "from the earliest
`{` or `[` to the last `}` or `]`".  On the text whose characters are
left-brace, quote, a, quote, colon, 1, right-brace, space, left-bracket,
2, right-bracket, the claim's span is the whole string, which fails to
parse, so the claim predicts the absent marker — but the regex alternation
matches the object span alone and the code returns the parsed object. -/
theorem c7_counterexample :
    extractJSON (JVal.str "\x7b\"a\":1\x7d [2]") = JVal.obj [("a", JVal.num 1)] ∧
    claimExtract "\x7b\"a\":1\x7d [2]" = JVal.null := ⟨rfl, rfl⟩

/-- Claim C7 (amended): the extractor makes a single parse attempt on the
span chosen as follows — the start is the earliest position holding a `{`
with a later `}` or a `[` with a later `]`; from a `{` the span runs to the
last `}` of the string, from a `[` to the last `]` — and returns the parsed
value, or the absent marker when no such span exists or the parse fails,
with no repair or retry; in particular a markdown-fenced JSON array
embedded in prose is returned parsed, and a string containing no JSON
yields absent. -/
theorem c7_extractor_amended :
    (∀ s : String, extractJSON (JVal.str s) = amendedExtract s) ∧
    extractJSON (JVal.str "Here is the result:\n```json\n[\x7b\"id\":\"a\"\x7d]\n```") =
      JVal.arr [JVal.obj [("id", JVal.str "a")]] ∧
    extractJSON (JVal.str "no json here") = JVal.null :=
  ⟨extractJSON_eq_amendedExtract, rfl, rfl⟩

/-- Claim C8 holds: whenever the provider has responded with a text and
extraction plus normalization yield an empty sequence, the handler answers
the distinct 502 bad-gateway response — not the 200 success and not the
500 crash path — whose `raw` field is the first at-most-1000 characters of
the provider's text, and that excerpt is non-empty whenever the text is. -/
theorem c8_unparseable_bad_gateway (rawText : String) (batch : List JVal)
    (h : normalizeResults (extractJSON (JVal.str rawText)) batch = Except.ok []) :
    analyzeRespond rawText batch =
      ApiResponse.badGateway "Unable to parse AI response" (String.mk (rawText.toList.take 1000)) ∧
    (String.mk (rawText.toList.take 1000)).length ≤ 1000 ∧
    (rawText ≠ "" → String.mk (rawText.toList.take 1000) ≠ "") := by
  refine ⟨?_, ?_, ?_⟩
  · unfold analyzeRespond
    rw [h]
    rfl
  · show (rawText.toList.take 1000).length ≤ 1000
    rw [List.length_take]
    exact min_le_left _ _
  · intro hne hEq
    apply hne
    have h₁ : rawText.toList.take 1000 = [] := congrArg String.data hEq
    have h₂ : rawText.toList = [] := by
      rcases hl : rawText.toList with - | ⟨c, tl⟩
      · rfl
      · rw [hl] at h₁
        simp at h₁
    cases rawText
    rename_i data
    have h₃ : data = [] := h₂
    rw [h₃]

/-- Concrete instance of claim C8: prose with no JSON answers the 502
response with the non-empty excerpt. -/
theorem c8_witness :
    analyzeRespond "no json here" [] =
      ApiResponse.badGateway "Unable to parse AI response"
        (String.mk (("no json here" : String).toList.take 1000)) ∧
    (String.mk (("no json here" : String).toList.take 1000)).length ≤ 1000 ∧
    (("no json here" : String) ≠ "" →
      String.mk (("no json here" : String).toList.take 1000) ≠ "") :=
  c8_unparseable_bad_gateway "no json here" [] rfl

/-- Claim C9 holds: when the model element's `id` is falsy (absent, `null`,
the empty string, `0`, `false`) the fallback chain
`input[i].id`, then `input[i].complaintId`, then the synthetic
`row-<i>` resolves the id, and provided the batch's `id` and `complaintId`
fields are each a non-empty string or absent, the normalized id is always a
non-empty string. -/
theorem c9_id_fallback (item base : JVal) (idx : Nat) (r : NormItem)
    (h : normalizeItem item base idx = Except.ok r)
    (hid : falsyField (propLookup item "id") = true)
    (hb₁ : goodIdField (propLookup base "id") = true)
    (hb₂ : goodIdField (propLookup base "complaintId") = true) :
    (∃ s : String, r.id = JVal.str s ∧ s ≠ "") ∧
    (match propLookup base "id" with
     | some (JVal.str s) => r.id = JVal.str s
     | _ =>
       match propLookup base "complaintId" with
       | some (JVal.str s) => r.id = JVal.str s
       | _ => r.id = JVal.str ("row-" ++ toString idx)) := by
  obtain ⟨-, hidr, -, -, -, -⟩ := normalizeItem_fields h
  unfold idChain at hidr
  rw [jsOr_falsy_opt hid] at hidr
  rcases hpb : propLookup base "id" with - | v
  · rw [hpb, jsOr_none] at hidr
    rcases hpc : propLookup base "complaintId" with - | w
    · rw [hpc, jsOr_none] at hidr
      refine ⟨⟨"row-" ++ toString idx, hidr, row_ne_empty idx⟩, ?_⟩
      simp only [hpb, hpc]
      exact hidr
    · cases w
      case str s =>
        rw [hpc] at hb₂
        simp [goodIdField] at hb₂
        rw [hpc, jsOr_some_truthy (by simp [truthy]; exact hb₂)] at hidr
        refine ⟨⟨s, hidr, hb₂⟩, ?_⟩
        simp only [hpb, hpc]
        exact hidr
      all_goals
        rw [hpc] at hb₂
        simp [goodIdField] at hb₂
  · cases v
    case str s =>
      rw [hpb] at hb₁
      simp [goodIdField] at hb₁
      rw [hpb, jsOr_some_truthy (by simp [truthy]; exact hb₁)] at hidr
      refine ⟨⟨s, hidr, hb₁⟩, ?_⟩
      simp only [hpb]
      exact hidr
    all_goals
      rw [hpb] at hb₁
      simp [goodIdField] at hb₁

/-- Concrete instance of claim C9: the model id is the falsy empty string,
the batch row has no `id` but `complaintId` `"ABC"`, and the normalized id
is the non-empty string `"ABC"`. -/
theorem c9_witness :
    (∃ s : String,
      (⟨JVal.str "ABC", "medium", JVal.str "", JVal.null, [],
        JVal.obj [("id", JVal.str "")]⟩ : NormItem).id = JVal.str s ∧ s ≠ "") ∧
    (match propLookup (JVal.obj [("complaintId", JVal.str "ABC")]) "id" with
     | some (JVal.str s) =>
       (⟨JVal.str "ABC", "medium", JVal.str "", JVal.null, [],
         JVal.obj [("id", JVal.str "")]⟩ : NormItem).id = JVal.str s
     | _ =>
       match propLookup (JVal.obj [("complaintId", JVal.str "ABC")]) "complaintId" with
       | some (JVal.str s) =>
         (⟨JVal.str "ABC", "medium", JVal.str "", JVal.null, [],
           JVal.obj [("id", JVal.str "")]⟩ : NormItem).id = JVal.str s
       | _ =>
         (⟨JVal.str "ABC", "medium", JVal.str "", JVal.null, [],
           JVal.obj [("id", JVal.str "")]⟩ : NormItem).id = JVal.str ("row-" ++ toString 0)) :=
  c9_id_fallback (JVal.obj [("id", JVal.str "")]) (JVal.obj [("complaintId", JVal.str "ABC")]) 0
    ⟨JVal.str "ABC", "medium", JVal.str "", JVal.null, [], JVal.obj [("id", JVal.str "")]⟩
    rfl (by decide) (by decide) (by decide)

/-- Claim C10 holds: in the issue projection (applied to the first ten
entries of an element's issues array), a truthy `rationale` takes
precedence over `reason`, a falsy one — the empty string included — is
overridden by a truthy `reason`; likewise a truthy `risk_category` takes
precedence over `category`, and `category` substitutes exactly when
`risk_category` is falsy. -/
theorem c10_synonym_precedence (issue : JVal) (r : NormIssue)
    (h : projectIssue issue = Except.ok r) :
    (∀ a, propLookup issue "rationale" = some a → truthy a = true → r.rationale = a) ∧
    (∀ a b, propLookup issue "rationale" = some a → truthy a = false →
      propLookup issue "reason" = some b → truthy b = true → r.rationale = b) ∧
    (∀ a, propLookup issue "risk_category" = some a → truthy a = true → r.risk_category = a) ∧
    (∀ a b, propLookup issue "risk_category" = some a → truthy a = false →
      propLookup issue "category" = some b → truthy b = true → r.risk_category = b) := by
  obtain ⟨-, hr, hc⟩ := projectIssue_fields h
  refine ⟨?_, ?_, ?_, ?_⟩
  · intro a hp ht
    rw [hr, hp, jsOr_some_truthy ht]
  · intro a b hp hf hq ht
    rw [hr, hp, jsOr_some_falsy hf, hq, jsOr_some_truthy ht]
  · intro a hp ht
    rw [hc, hp, jsOr_some_truthy ht]
  · intro a b hp hf hq ht
    rw [hc, hp, jsOr_some_falsy hf, hq, jsOr_some_truthy ht]

/-- Concrete instance of claim C10: an issue with empty-string `rationale`
and `risk_category` next to truthy `reason` and `category` projects to the
`reason` and `category` values. -/
theorem c10_witness :
    (⟨JVal.str "", JVal.str "why", JVal.str "fees"⟩ : NormIssue).rationale = JVal.str "why" ∧
    (⟨JVal.str "", JVal.str "why", JVal.str "fees"⟩ : NormIssue).risk_category = JVal.str "fees" :=
  ⟨(c10_synonym_precedence
      (JVal.obj [("rationale", JVal.str ""), ("reason", JVal.str "why"),
        ("risk_category", JVal.str ""), ("category", JVal.str "fees")])
      ⟨JVal.str "", JVal.str "why", JVal.str "fees"⟩ rfl).2.1
      (JVal.str "") (JVal.str "why") rfl rfl rfl rfl,
   (c10_synonym_precedence
      (JVal.obj [("rationale", JVal.str ""), ("reason", JVal.str "why"),
        ("risk_category", JVal.str ""), ("category", JVal.str "fees")])
      ⟨JVal.str "", JVal.str "why", JVal.str "fees"⟩ rfl).2.2.2
      (JVal.str "") (JVal.str "fees") rfl rfl rfl rfl⟩

end ClaudeApi
